import Mathlib

/-!
Verification of the batch-translation pipeline of the bitrix-llm-localization
repository: the gap-fill engine (src/fill-gaps.ts), the token estimator and
dynamic batcher (src/token-estimator.ts), the translator client
(src/translator.ts) and the orchestrator apply/retry loop
(scripts/translate.ts).

Snapshots (file → key → lang → text|null) are modelled as association lists
whose entry order is the JavaScript object iteration order; JS objects have
unique keys, and all mutation in the source is per-entry, so per-entry maps
over these lists are an exact semantics.
-/

namespace BitrixLoc

/-- A key's language slots, in object iteration order (lang, value): `null` is `none`. -/
abbrev Langs := List (String × Option String)

/-- A file's keys in iteration order. -/
abbrev FileKeys := List (String × Langs)

/-- Snapshot: file-path → key → lang → (text | null), as in `TranslationMap` of utils.ts. -/
abbrev TranslationMap := List (String × FileKeys)

/-- JS property lookup `obj[k]` on an association list (first occurrence). -/
def alookup {α : Type} (l : List (String × α)) (k : String) : Option α :=
  (l.find? (fun p => p.1 == k)).map Prod.snd

/-- Map the values of an association list, keeping keys and order. -/
def mapSnd {α β : Type} (f : String → α → β) (l : List (String × α)) : List (String × β) :=
  l.map (fun p => (p.1, f p.1 p.2))

/-- JavaScript `String.prototype.trim`: strip leading and trailing whitespace.
Implemented over the character list so that it evaluates by kernel reduction. -/
def jsTrim (s : String) : String :=
  String.mk (((s.toList.dropWhile Char.isWhitespace).reverse.dropWhile
    Char.isWhitespace).reverse)

/-- `normalizeSourceText` of fill-gaps.ts: trim; null or empty becomes none. -/
def normalizeSourceText (val : Option String) : Option String :=
  match val with
  | none => none
  | some s => let trimmed := jsTrim s; if trimmed = "" then none else some trimmed

/-- `getSourceText` of fill-gaps.ts: prefer the normalized `sourceLang` value,
else the first language value that normalizes to something. -/
def getSourceText (langs : Langs) (sourceLang : String) : Option String :=
  let primaryRaw : Option String :=
    match alookup langs sourceLang with
    | none => none
    | some v => v
  match normalizeSourceText primaryRaw with
  | some primary => some primary
  | none => langs.findSome? (fun p => normalizeSourceText p.2)

/-- `isMissing` of fill-gaps.ts: null or trims to the empty string. -/
def isMissing (val : Option String) : Bool :=
  match val with
  | none => true
  | some s => jsTrim s == ""

/-- `DonorEntry` of fill-gaps.ts. -/
structure DonorEntry where
  filePath : String
  key : String
  translations : List (String × String)
deriving Repr, DecidableEq

/-- The `translations` record collected for a donor: all non-missing slots. -/
def translationsOf (langs : Langs) : List (String × String) :=
  langs.filterMap (fun p =>
    match p.2 with
    | none => none
    | some s => if jsTrim s == "" then none else some (p.1, s))

/-- The index `Map<string, DonorEntry[]>`; JS `Map` keeps first-insertion key order. -/
abbrev SourceIndex := List (String × List DonorEntry)

/-- `index.set(s, list.push(e))`: append to the existing bucket in place,
or add a new bucket at the end. -/
def indexInsert (idx : SourceIndex) (s : String) (e : DonorEntry) : SourceIndex :=
  match idx with
  | [] => [(s, [e])]
  | (t, l) :: rest =>
    if t == s then (t, l ++ [e]) :: rest
    else (t, l) :: indexInsert rest s e

/-- One key of `buildSourceTextIndex`: record a donor if it has a source text
and at least one non-missing translation. -/
def indexAddKey (sourceLang fp : String) (idx : SourceIndex) (ke : String × Langs) :
    SourceIndex :=
  match getSourceText ke.2 sourceLang with
  | none => idx
  | some sourceText =>
    let translations := translationsOf ke.2
    if translations.isEmpty then idx
    else indexInsert idx sourceText ⟨fp, ke.1, translations⟩

/-- Inner loop of `buildSourceTextIndex` over one file's keys. -/
def indexAddFile (sourceLang : String) (idx : SourceIndex) (fe : String × FileKeys) :
    SourceIndex :=
  fe.2.foldl (indexAddKey sourceLang fe.1) idx

/-- `buildSourceTextIndex` of fill-gaps.ts. -/
def buildSourceTextIndex (data : TranslationMap) (sourceLang : String) : SourceIndex :=
  data.foldl (indexAddFile sourceLang) []

/-- Donor bucket for a source text (`index.get(s) ?? []`). -/
def indexGetD (idx : SourceIndex) (s : String) : List DonorEntry :=
  (alookup idx s).getD []

/-- `donors.find(d => d.translations[lang])` followed by reading that value:
the first donor whose slot for `lang` is a truthy (non-empty) string. -/
def donorValue (donors : List DonorEntry) (lang : String) : Option String :=
  donors.findSome? (fun d =>
    match alookup d.translations lang with
    | none => none
    | some s => if s == "" then none else some s)

/-- One log line of the fill passes, as structured events in emission order. -/
inductive LogEvent where
  | substitution (filePath key lang : String) (oldVal : Option String) (newVal : String)
  | normalizeEmpty (filePath key lang : String) (oldVal : Option String)
  | uniformFill (filePath key lang : String) (newVal : String)
deriving Repr, DecidableEq

/-- The per-slot effect of the fill pass: a missing slot takes the first
donor's value for its language, anything else is untouched. -/
def slotFill (donors : List DonorEntry) (lang : String) (v : Option String) : Option String :=
  if isMissing v then
    match donorValue donors lang with
    | some newVal => some newVal
    | none => v
  else v

/-- The fill pass (`fillGaps`) on one key: new slots, substitution count, log. -/
def fillKeyGaps (idx : SourceIndex) (filePath key : String) (langs : Langs) :
    Langs × Nat × List LogEvent :=
  match getSourceText langs "en" with
  | none => (langs, 0, [])
  | some sourceText =>
    match alookup idx sourceText with
    | none => (langs, 0, [])
    | some donors =>
      if donors.isEmpty then (langs, 0, [])
      else
        (mapSnd (slotFill donors) langs,
         (langs.filter (fun p => isMissing p.2 && (donorValue donors p.1).isSome)).length,
         langs.filterMap (fun p =>
           if isMissing p.2 then
             (donorValue donors p.1).map (fun newVal =>
               LogEvent.substitution filePath key p.1 p.2 newVal)
           else none))

/-- `fillGaps` of fill-gaps.ts: mutate every key in place, return the
substitution count and the log calls in order. -/
def fillGaps (data : TranslationMap) (idx : SourceIndex) :
    TranslationMap × Nat × List LogEvent :=
  (mapSnd (fun fp ks => mapSnd (fun k langs => (fillKeyGaps idx fp k langs).1) ks) data,
   (data.map (fun fe =>
     (fe.2.map (fun ke => (fillKeyGaps idx fe.1 ke.1 ke.2).2.1)).sum)).sum,
   data.flatMap (fun fe =>
     fe.2.flatMap (fun ke => (fillKeyGaps idx fe.1 ke.1 ke.2).2.2)))

/-- `isEmptyOrWhitespaceOnly` of fill-gaps.ts. -/
def isEmptyOrWhitespaceOnly (val : Option String) : Bool :=
  match val with
  | none => true
  | some s => jsTrim s == ""

/-- Normalization (`fillAllNullOrWhitespaceOnlyKeys`) on one key: if no slot has
real content, set every slot to one space, counting slots not already one space. -/
def normalizeKeyLangs (filePath key : String) (langs : Langs) :
    Langs × Nat × List LogEvent :=
  if langs.any (fun p => !isEmptyOrWhitespaceOnly p.2) then (langs, 0, [])
  else
    (mapSnd (fun _ v => if v == some " " then v else some " ") langs,
     (langs.filter (fun p => !(p.2 == some " "))).length,
     langs.filterMap (fun p =>
       if p.2 == some " " then none
       else some (LogEvent.normalizeEmpty filePath key p.1 p.2)))

/-- `fillAllNullOrWhitespaceOnlyKeys` of fill-gaps.ts. -/
def fillAllNullOrWhitespaceOnlyKeys (data : TranslationMap) :
    TranslationMap × Nat × List LogEvent :=
  (mapSnd (fun fp ks => mapSnd (fun k langs => (normalizeKeyLangs fp k langs).1) ks) data,
   (data.map (fun fe =>
     (fe.2.map (fun ke => (normalizeKeyLangs fe.1 ke.1 ke.2).2.1)).sum)).sum,
   data.flatMap (fun fe =>
     fe.2.flatMap (fun ke => (normalizeKeyLangs fe.1 ke.1 ke.2).2.2)))

/-- The uniform pass (`fillUniformValues`) on one key. -/
def uniformKeyLangs (filePath key : String) (langs : Langs) :
    Langs × Nat × List LogEvent :=
  let existingValues := langs.filterMap (fun p =>
    match p.2 with
    | none => none
    | some s => if jsTrim s == "" then none else some s)
  let missingLangs := (langs.filter (fun p => isMissing p.2)).map Prod.fst
  if missingLangs.isEmpty then (langs, 0, [])
  else
    match existingValues with
    | [] => (langs, 0, [])
    | firstVal :: rest =>
      if !(rest.all (fun v => v == firstVal)) then (langs, 0, [])
      else if (firstVal :: rest).length < 2 then (langs, 0, [])
      else
        (mapSnd (fun _ v => if isMissing v then some firstVal else v) langs,
         missingLangs.length,
         missingLangs.map (fun l => LogEvent.uniformFill filePath key l firstVal))

/-- `fillUniformValues` of fill-gaps.ts. -/
def fillUniformValues (data : TranslationMap) :
    TranslationMap × Nat × List LogEvent :=
  (mapSnd (fun fp ks => mapSnd (fun k langs => (uniformKeyLangs fp k langs).1) ks) data,
   (data.map (fun fe =>
     (fe.2.map (fun ke => (uniformKeyLangs fe.1 ke.1 ke.2).2.1)).sum)).sum,
   data.flatMap (fun fe =>
     fe.2.flatMap (fun ke => (uniformKeyLangs fe.1 ke.1 ke.2).2.2)))

/-- The slot stored at `data[fp][key][lang]`: outer `none` when the path is absent. -/
def getSlot (data : TranslationMap) (fp key lang : String) : Option (Option String) :=
  match alookup data fp with
  | none => none
  | some ks =>
    match alookup ks key with
    | none => none
    | some langs => alookup langs lang

/-- The language table of `data[fp][key]`, when the path exists. -/
def keyLangs (data : TranslationMap) (fp key : String) : Option Langs :=
  match alookup data fp with
  | none => none
  | some ks => alookup ks key

/-- The script scripts/fill-gaps.ts: pass 0 normalization, then index build and
fill pass, then the uniform pass; total count and concatenated log. -/
def fillGapsScript (data : TranslationMap) : TranslationMap × Nat × List LogEvent :=
  let normalizeRes := fillAllNullOrWhitespaceOnlyKeys data
  let index := buildSourceTextIndex normalizeRes.1 "en"
  let gapRes := fillGaps normalizeRes.1 index
  let uniformRes := fillUniformValues gapRes.1
  (uniformRes.1, normalizeRes.2.1 + gapRes.2.1 + uniformRes.2.1,
   normalizeRes.2.2 ++ gapRes.2.2 ++ uniformRes.2.2)

/-- Event classifier: emitted by the normalization pass. -/
def LogEvent.isNormalizeEmpty : LogEvent → Bool
  | .normalizeEmpty _ _ _ _ => true
  | _ => false

/-- Event classifier: emitted by the fill pass. -/
def LogEvent.isSubstitution : LogEvent → Bool
  | .substitution _ _ _ _ _ => true
  | _ => false

/-- Event classifier: emitted by the uniform pass. -/
def LogEvent.isUniformFill : LogEvent → Bool
  | .uniformFill _ _ _ _ => true
  | _ => false

/-! ## Token estimator (src/token-estimator.ts) -/

/-- A code point in the Cyrillic block U+0400 to U+04FF. -/
def isCyrillicChar (c : Char) : Bool :=
  0x0400 ≤ c.toNat && c.toNat ≤ 0x04FF

/-- The structural placeholder punctuation class of `estimateTokens`:
number sign, percent sign, curly braces, angle brackets. -/
def isPlaceholderChar (c : Char) : Bool :=
  c.toNat == 35 || c.toNat == 37 || c.toNat == 123 || c.toNat == 125 ||
  c.toNat == 60 || c.toNat == 62

/-- `estimateTokens` of token-estimator.ts: ceiling of length over a
chars-per-token factor of 3 (mostly Cyrillic), 5 (placeholders), else 4.
`cyrillicRatio > 0.5` is exactly `len < 2 * cyrillicCount`. -/
def estimateTokens (text : String) : Nat :=
  if text = "" then 0
  else
    let len := text.length
    let cyrillicCount := (text.toList.filter isCyrillicChar).length
    let hasPlaceholders := text.toList.any isPlaceholderChar
    let charsPerToken : Nat :=
      if len < 2 * cyrillicCount then 3 else if hasPlaceholders then 5 else 4
    (len + charsPerToken - 1) / charsPerToken

/-- `TranslationItem` of translator.ts. -/
structure TranslationItem where
  key : String
  fileName : String
  context : List (String × String)
  targets : List String
deriving Repr, DecidableEq

/-- `estimateItemTokens`: key, filename and context estimates, inflated by the
JSON-overhead factor 1.8. `Math.ceil(tokens * 1.8)` on the natural number
`tokens` is exactly the ceiling of `9 * tokens / 5`, which in natural division
is `(9 * tokens + 4) / 5` (see `estimateItemTokens_eq_ceil`). -/
def estimateItemTokens (item : TranslationItem) : Nat :=
  let tokens : Nat := estimateTokens item.key + estimateTokens item.fileName +
    (item.context.map (fun p => estimateTokens p.2)).sum
  (9 * tokens + 4) / 5

/-- `SYSTEM_PROMPT_TOKENS` of token-estimator.ts. -/
def SYSTEM_PROMPT_TOKENS : Nat := 200

/-- `RESPONSE_OVERHEAD_PER_ITEM` of token-estimator.ts. -/
def RESPONSE_OVERHEAD_PER_ITEM : Nat := 30

/-- `MAX_BATCH_ITEMS` of token-estimator.ts. -/
def MAX_BATCH_ITEMS : Nat := 50

/-- The context-token total of one item, as summed in `estimateResponseTokens`. -/
def itemContextTokens (item : TranslationItem) : Nat :=
  (item.context.map (fun p => estimateTokens p.2)).sum

/-- `estimateResponseTokens` with the multiplier kept symbolic, as written:
per item, context tokens times number of targets times `avgResponseMultiplier`,
plus `RESPONSE_OVERHEAD_PER_ITEM` per target; summed, then `Math.ceil`. -/
def estimateResponseTokensQ (items : List TranslationItem)
    (avgResponseMultiplier : ℚ) : ℚ :=
  (items.map (fun item =>
    (itemContextTokens item : ℚ) * item.targets.length * avgResponseMultiplier
      + (RESPONSE_OVERHEAD_PER_ITEM : ℚ) * item.targets.length)).sum

/-- `estimateResponseTokens` at the default multiplier `1.2 = 6/5`, the only
multiplier any call site in the repository uses. The ceiling of
`(6 * A) / 5 + 30 * B` with `A = Σ contextTokens * |targets|` and
`B = Σ |targets|` is `(6 * A + 4) / 5 + 30 * B` in natural division
(see `estimateResponseTokens_eq_ceil`). -/
def estimateResponseTokens (items : List TranslationItem) : Nat :=
  (6 * (items.map (fun item => itemContextTokens item * item.targets.length)).sum + 4) / 5
    + RESPONSE_OVERHEAD_PER_ITEM * (items.map (fun item => item.targets.length)).sum

/-- Loop state of `buildDynamicBatches`. -/
structure BatchState where
  batches : List (List TranslationItem)
  currentBatch : List TranslationItem
  currentPromptTokens : Nat
deriving Repr

/-- One iteration of the `buildDynamicBatches` loop: close the current batch
when it is non-empty and the prompt, response, or hard item cap would be
exceeded; otherwise append. -/
def batchStep (maxPromptTokens maxResponseTokens : Nat) (st : BatchState)
    (item : TranslationItem) : BatchState :=
  let itemTokens := estimateItemTokens item
  let potentialPromptTokens := st.currentPromptTokens + itemTokens
  let potentialResponseTokens := estimateResponseTokens (st.currentBatch ++ [item])
  if 0 < st.currentBatch.length ∧
      (maxPromptTokens < potentialPromptTokens ∨
       maxResponseTokens < potentialResponseTokens ∨
       MAX_BATCH_ITEMS ≤ st.currentBatch.length) then
    { batches := st.batches ++ [st.currentBatch], currentBatch := [item],
      currentPromptTokens := SYSTEM_PROMPT_TOKENS + itemTokens }
  else
    { batches := st.batches, currentBatch := st.currentBatch ++ [item],
      currentPromptTokens := potentialPromptTokens }

/-- `buildDynamicBatches` of token-estimator.ts. -/
def buildDynamicBatches (items : List TranslationItem)
    (maxPromptTokens maxResponseTokens : Nat) : List (List TranslationItem) :=
  let final := items.foldl (batchStep maxPromptTokens maxResponseTokens)
    ⟨[], [], SYSTEM_PROMPT_TOKENS⟩
  if final.currentBatch.isEmpty then final.batches
  else final.batches ++ [final.currentBatch]

/-! ## Translator client (src/translator.ts)

One oracle exchange (`callLlm` followed by `postProcess`) is modelled as an
opaque call-indexed outcome: call number n either fails (transport or parse
error, `none`) or yields the processed key-to-language-to-text map. -/

/-- The parsed, post-processed result of one oracle exchange. -/
abbrev OracleResults := List (String × List (String × String))

/-- The external oracle: outcome of each successive exchange. -/
abbrev Oracle := Nat → Option OracleResults

/-- The huge-key routing test of `translateFileBatch`: some item's single-item
response estimate exceeds half of the response ceiling, and the FIRST item has
more than one target language (`items[0].targets.length > 1`). -/
def translateRouteHuge (maxResponseTokens : Nat) (items : List TranslationItem) : Bool :=
  items.any (fun item =>
    decide (maxResponseTokens < 2 * estimateResponseTokens [item]))
  && (match items with
      | [] => false
      | first :: _ => decide (1 < first.targets.length))

/-- One target language of one item in `translateHugeKeysByLanguage`: one
oracle exchange; a failure is logged and skipped, a present truthy value for
this item's key and language is recorded. -/
def hugeLangStep (oracle : Oracle) (item : TranslationItem)
    (acc : List (String × String) × Nat) (lang : String) :
    List (String × String) × Nat :=
  match oracle acc.2 with
  | none => (acc.1, acc.2 + 1)
  | some processed =>
    match alookup processed item.key with
    | none => (acc.1, acc.2 + 1)
    | some kv =>
      match alookup kv lang with
      | none => (acc.1, acc.2 + 1)
      | some text => if text = "" then (acc.1, acc.2 + 1)
        else (acc.1 ++ [(lang, text)], acc.2 + 1)

/-- Per-language exchanges for one item in `translateHugeKeysByLanguage`. -/
def hugeItemByLanguage (oracle : Oracle) (item : TranslationItem) (start : Nat) :
    List (String × String) × Nat :=
  item.targets.foldl (hugeLangStep oracle item) ([], start)

/-- One item of `translateHugeKeysByLanguage`: its per-language results are
appended under its key. -/
def hugeKeysStep (oracle : Oracle) (acc : OracleResults × Nat)
    (item : TranslationItem) : OracleResults × Nat :=
  let r := hugeItemByLanguage oracle item acc.2
  (acc.1 ++ [(item.key, r.1)], r.2)

/-- `translateHugeKeysByLanguage`: every item of the batch, one exchange per
target language, per-language failures tolerated. -/
def translateHugeKeysByLanguage (oracle : Oracle) (items : List TranslationItem)
    (start : Nat) : OracleResults × Nat :=
  items.foldl (hugeKeysStep oracle) ([], start)

/-- `Translator.translateFileBatch`: empty batch short-circuits; the huge-key
route never throws; otherwise one exchange, retried once on failure before the
error escapes to the caller. Returns the outcome and the next call index. -/
def translateFileBatch (maxResponseTokens : Nat) (oracle : Oracle)
    (items : List TranslationItem) (start : Nat) : Option OracleResults × Nat :=
  if items.isEmpty then (some [], start)
  else if translateRouteHuge maxResponseTokens items then
    let r := translateHugeKeysByLanguage oracle items start
    (some r.1, r.2)
  else
    match oracle start with
    | some results => (some results, start + 1)
    | none =>
      match oracle (start + 1) with
      | some results => (some results, start + 2)
      | none => (none, start + 2)

/-! ## Orchestrator (scripts/translate.ts) -/

/-- Modelled from the spec: `hasValidTranslationValue` is imported by
scripts/translate.ts from src/translation-utils.ts, whose source is not in the
repository; per the spec, a value is valid iff non-null and non-empty after trim. -/
def hasValidTranslationValue (v : Option String) : Bool :=
  match v with
  | none => false
  | some s => !(jsTrim s == "")

/-- JS `langs[lang] = text`: overwrite the property, or add it at the end. -/
def setLang (langs : Langs) (lang text : String) : Langs :=
  if (langs.find? (fun p => p.1 == lang)).isSome then
    langs.map (fun p => if p.1 == lang then (p.1, some text) else p)
  else langs ++ [(lang, some text)]

/-- `localizationData[filePath][key][lang] = text`. -/
def setSlot (data : TranslationMap) (fp key lang text : String) : TranslationMap :=
  data.map (fun fe =>
    if fe.1 == fp then
      (fe.1, fe.2.map (fun ke =>
        if ke.1 == key then (ke.1, setLang ke.2 lang text) else ke))
    else fe)

/-- Inner apply loop of translate.ts for one returned key: write every valid
value (no fillable-at-apply-time check in the code); count applied and skipped. -/
def applyKeyResults (data : TranslationMap) (fp key : String)
    (translations : List (String × String)) : TranslationMap × Nat × Nat :=
  translations.foldl (fun acc lt =>
    if hasValidTranslationValue (some lt.2) then
      (setSlot acc.1 fp key lt.1 lt.2, acc.2.1 + 1, acc.2.2)
    else (acc.1, acc.2.1, acc.2.2 + 1)) (data, 0, 0)

/-- The APPLY step of translate.ts (lines 281-298): keys present in the file
are applied per language; unknown keys are dropped and counted skipped. -/
def applyBatchResults (data : TranslationMap) (fp : String)
    (results : OracleResults) : TranslationMap × Nat × Nat :=
  results.foldl (fun acc kr =>
    match keyLangs acc.1 fp kr.1 with
    | some _ =>
      let r := applyKeyResults acc.1 fp kr.1 kr.2
      (r.1, acc.2.1 + r.2.1, acc.2.2 + r.2.2)
    | none => (acc.1, acc.2.1, acc.2.2 + kr.2.length)) (data, 0, 0)

/-- Outcome of processing one batch through the retry loop. -/
structure BatchRunResult where
  data : TranslationMap
  applied : Nat
  skipped : Nat
  failed : Nat
  sleeps : List Nat
  llmCalls : Nat
  attempts : Nat
deriving Repr, DecidableEq

/-- The per-batch CALL/APPLY loop of translate.ts: up to `maxRetries = 3`
attempts at `translator.translateFileBatch`, sleeping `retryDelaysMs`
(5000 before attempt 2, 15000 before attempt 3); a success applies and stops;
exhaustion increments `failedBatches` and leaves the snapshot untouched.
`llmCalls` counts the underlying oracle exchanges. -/
def runBatchRetries (maxResponseTokens : Nat) (oracle : Oracle)
    (data : TranslationMap) (filePath : String) (batch : List TranslationItem) :
    BatchRunResult :=
  let a0 := translateFileBatch maxResponseTokens oracle batch 0
  match a0.1 with
  | some results =>
    let ap := applyBatchResults data filePath results
    ⟨ap.1, ap.2.1, ap.2.2, 0, [], a0.2, 1⟩
  | none =>
    let a1 := translateFileBatch maxResponseTokens oracle batch a0.2
    match a1.1 with
    | some results =>
      let ap := applyBatchResults data filePath results
      ⟨ap.1, ap.2.1, ap.2.2, 0, [5000], a1.2, 2⟩
    | none =>
      let a2 := translateFileBatch maxResponseTokens oracle batch a1.2
      match a2.1 with
      | some results =>
        let ap := applyBatchResults data filePath results
        ⟨ap.1, ap.2.1, ap.2.2, 0, [5000, 15000], a2.2, 3⟩
      | none => ⟨data, 0, 0, 1, [5000, 15000], a2.2, 3⟩

/-- The batch loop of translate.ts over one file's batches: every batch is
processed in order whether or not the previous one failed. Returns the final
snapshot, the failed-batch count, and the number of batches run. -/
def processBatches (maxResponseTokens : Nat) (oracleFor : Nat → Oracle)
    (data : TranslationMap) (filePath : String) :
    List (List TranslationItem) → TranslationMap × Nat × Nat
  | [] => (data, 0, 0)
  | b :: rest =>
    let r := runBatchRetries maxResponseTokens (oracleFor 0) data filePath b
    let tail := processBatches maxResponseTokens (fun i => oracleFor (i + 1))
      r.data filePath rest
    (tail.1, r.failed + tail.2.1, 1 + tail.2.2)

/-! ## Shapes, spec-side counts and concrete snapshots -/

/-- The shape of a snapshot: its file paths, keys and language slots, without values. -/
def snapshotShape (data : TranslationMap) :
    List (String × List (String × List String)) :=
  data.map (fun fe => (fe.1, fe.2.map (fun ke => (ke.1, ke.2.map Prod.fst))))

/-- The substitutions count claim C8 predicts, written from the claim's words:
summed over the keys ALL of whose language values are null, the number of
language slots whose value is not already one space. For comparison with the
count `fillAllNullOrWhitespaceOnlyKeys` actually returns. -/
def claimAllNullCount (data : TranslationMap) : Nat :=
  (data.map (fun fe =>
    (fe.2.map (fun ke =>
      if ke.2.all (fun p => p.2 == none) then
        (ke.2.filter (fun p => !(p.2 == some " "))).length
      else 0)).sum)).sum

/-- The substitutions count the code actually produces, written from the
amended claim's words: summed over the keys with no non-whitespace value
(null as well as whitespace-only), the slots not already one space. -/
def specNoRealValueCount (data : TranslationMap) : Nat :=
  (data.map (fun fe =>
    (fe.2.map (fun ke =>
      if ke.2.all (fun p => isEmptyOrWhitespaceOnly p.2) then
        (ke.2.filter (fun p => !(p.2 == some " "))).length
      else 0)).sum)).sum

/-- A snapshot where key K holds real text in "ru" while a donor with the same
source text offers a different "ru" value. -/
def exC2w : TranslationMap :=
  [("f", [("D", [("en", some "Hello"), ("ru", some "Privet")]),
          ("K", [("en", some "Hello"), ("ru", some "Real text"), ("de", none)])])]

/-- A snapshot with one whitespace-only (but not null) slot. -/
def exC8 : TranslationMap := [("f", [("K", [("en", some "  ")])])]

/-- A snapshot with one all-null key. -/
def exC8w : TranslationMap := [("f", [("K", [("en", none), ("ru", none)])])]

/-- A snapshot where ("f","K","ru") already holds real (non-whitespace) text. -/
def exC4 : TranslationMap :=
  [("f", [("K", [("en", some "Hello"), ("ru", some "Real text")])])]

/-- A snapshot with one all-blank key Z and a donor pair D, R sharing the
source text "Delete". -/
def exC9 : TranslationMap :=
  [("f", [("Z", [("en", none)]),
          ("D", [("en", some "Delete"), ("ru", some "Del-ru")]),
          ("R", [("en", some "Delete"), ("ru", none)])])]

/-- A small item: one context value, one target. -/
def exItemA : TranslationItem := ⟨"A", "f", [("en", "Hi")], ["de"]⟩

/-- An item whose single-item response estimate is 68 tokens, two targets. -/
def exItemB : TranslationItem := ⟨"B", "f", [("en", "aaaaaaaaaaaa")], ["de", "tr"]⟩

/-- Whether the first fill pass leaves every key's source text unchanged: the
hypothesis under which a second pass with a rebuilt index makes no
substitution. -/
def sourceTextStable (data : TranslationMap) : Bool :=
  data.all (fun fe => fe.2.all (fun ke =>
    getSourceText ((fillKeyGaps (buildSourceTextIndex data "en") fe.1 ke.1 ke.2).1) "en"
      == getSourceText ke.2 "en"))

/-- A snapshot on which a second fill pass still substitutes: the first pass
fills K.de = "Hallo" from donor D, which changes K's source text from "A"
(first non-empty value, ru) to "Hallo" (now the earlier de slot), and the
rebuilt index then lets M donate K.en = "Hallo". -/
def exC1 : TranslationMap :=
  [("f", [("D", [("en", none), ("ru", some "A"), ("de", some "Hallo")]),
          ("M", [("en", some "Hallo")]),
          ("K", [("en", none), ("de", none), ("ru", some "A")])])]

/-- The spec's donor example: every key keeps its source text across the first
pass, so the second pass makes no substitution. -/
def exC1w : TranslationMap :=
  [("f", [("D", [("en", some "Delete"), ("ru", some "Udalit")]),
          ("R", [("en", some "Delete"), ("ru", none)])])]

/-! ## Association-list lemmas -/

theorem alookup_mapSnd {α β : Type} (f : String → α → β) (l : List (String × α))
    (k : String) : alookup (mapSnd f l) k = (alookup l k).map (f k) := by
  induction l with
  | nil => rfl
  | cons p rest ih =>
    by_cases h : p.1 = k
    · subst h
      simp [mapSnd, alookup, List.find?_cons]
    · have hb : (p.1 == k) = false := by simp [h]
      simpa [mapSnd, alookup, List.find?_cons, hb] using ih

theorem mapSnd_map_fst {α β : Type} (f : String → α → β) (l : List (String × α)) :
    (mapSnd f l).map Prod.fst = l.map Prod.fst := by
  simp [mapSnd, List.map_map, Function.comp]

theorem getSlot_eq_bind (data : TranslationMap) (fp k lang : String) :
    getSlot data fp k lang =
      (keyLangs data fp k).bind (fun langs => alookup langs lang) := by
  unfold getSlot keyLangs
  cases alookup data fp with
  | none => rfl
  | some ks =>
    simp only []
    cases alookup ks k <;> rfl

theorem keyLangs_mapSnd2 (F : String → String → Langs → Langs)
    (data : TranslationMap) (fp k : String) :
    keyLangs (mapSnd (fun fp2 ks => mapSnd (fun k2 langs => F fp2 k2 langs) ks) data) fp k
      = (keyLangs data fp k).map (F fp k) := by
  unfold keyLangs
  rw [alookup_mapSnd]
  cases alookup data fp with
  | none => rfl
  | some ks => simp [alookup_mapSnd]

theorem alookup_mem {α : Type} {l : List (String × α)} {k : String} {v : α}
    (h : alookup l k = some v) : (k, v) ∈ l := by
  unfold alookup at h
  cases hf : l.find? (fun p => p.1 == k) with
  | none => simp [hf] at h
  | some p =>
    have hmem := List.mem_of_find?_eq_some hf
    have hpred := List.find?_some hf
    have hk : p.1 = k := by simpa using hpred
    have hv : p.2 = v := by simp [hf] at h; exact h
    have : p = (k, v) := by
      cases p; simp_all
    rwa [this] at hmem

theorem alookup_isSome_of_mem {α : Type} {l : List (String × α)} {k : String} {v : α}
    (h : (k, v) ∈ l) : (alookup l k).isSome := by
  have hfind : (l.find? (fun p => p.1 == k)).isSome := by
    rw [List.find?_isSome]
    exact ⟨(k, v), h, by simp⟩
  unfold alookup
  cases hf : l.find? (fun p => p.1 == k) with
  | none => rw [hf] at hfind; simp at hfind
  | some p => simp

/-! ## Branch characterizations of the per-key passes -/

theorem fillKeyGaps_data_def (idx : SourceIndex) (fp k : String) (langs : Langs) :
    (fillKeyGaps idx fp k langs).1 =
      match getSourceText langs "en" with
      | none => langs
      | some sourceText =>
        match alookup idx sourceText with
        | none => langs
        | some donors =>
          if donors.isEmpty then langs else mapSnd (slotFill donors) langs := by
  unfold fillKeyGaps
  cases getSourceText langs "en" with
  | none => rfl
  | some sourceText =>
    simp only []
    cases alookup idx sourceText with
    | none => rfl
    | some donors => by_cases hde : donors.isEmpty <;> simp [hde]

theorem fillKeyGaps_count_def (idx : SourceIndex) (fp k : String) (langs : Langs) :
    (fillKeyGaps idx fp k langs).2.1 =
      match getSourceText langs "en" with
      | none => 0
      | some sourceText =>
        match alookup idx sourceText with
        | none => 0
        | some donors =>
          if donors.isEmpty then 0
          else (langs.filter
            (fun p => isMissing p.2 && (donorValue donors p.1).isSome)).length := by
  unfold fillKeyGaps
  cases getSourceText langs "en" with
  | none => rfl
  | some sourceText =>
    simp only []
    cases alookup idx sourceText with
    | none => rfl
    | some donors => by_cases hde : donors.isEmpty <;> simp [hde]

theorem normalizeKeyLangs_data_def (fp k : String) (langs : Langs) :
    (normalizeKeyLangs fp k langs).1 =
      if langs.any (fun p => !isEmptyOrWhitespaceOnly p.2) then langs
      else mapSnd (fun _ v => if v == some " " then v else some " ") langs := by
  unfold normalizeKeyLangs
  by_cases h : langs.any (fun p => !isEmptyOrWhitespaceOnly p.2) <;> simp [h]

theorem uniformKeyLangs_data_def (fp k : String) (langs : Langs) :
    (uniformKeyLangs fp k langs).1 = langs ∨
      ∃ firstVal,
        (uniformKeyLangs fp k langs).1 =
          mapSnd (fun _ v => if isMissing v then some firstVal else v) langs := by
  simp only [uniformKeyLangs]
  split
  · exact Or.inl rfl
  · split
    · exact Or.inl rfl
    · split
      · exact Or.inl rfl
      · split
        · exact Or.inl rfl
        · exact Or.inr ⟨_, rfl⟩

/-! ## Per-key slot preservation (C2 groundwork) -/

theorem fillKeyGaps_keeps_real (idx : SourceIndex) (fp k : String) (langs : Langs)
    (lang s : String) (h : alookup langs lang = some (some s))
    (hs : ¬ jsTrim s = "") :
    alookup (fillKeyGaps idx fp k langs).1 lang = some (some s) := by
  rw [fillKeyGaps_data_def]
  split
  · exact h
  · split
    · exact h
    · split
      · exact h
      · rw [alookup_mapSnd, h]
        simp [slotFill, isMissing, hs]

theorem normalizeKeyLangs_keeps_real (fp k : String) (langs : Langs)
    (lang s : String) (h : alookup langs lang = some (some s))
    (hs : ¬ jsTrim s = "") :
    alookup (normalizeKeyLangs fp k langs).1 lang = some (some s) := by
  rw [normalizeKeyLangs_data_def]
  have hmem : (lang, some s) ∈ langs := alookup_mem h
  have hany : langs.any (fun p => !isEmptyOrWhitespaceOnly p.2) = true := by
    rw [List.any_eq_true]
    exact ⟨(lang, some s), hmem, by simp [isEmptyOrWhitespaceOnly, hs]⟩
  simp [hany, h]

theorem uniformKeyLangs_keeps_real (fp k : String) (langs : Langs)
    (lang s : String) (h : alookup langs lang = some (some s))
    (hs : ¬ jsTrim s = "") :
    alookup (uniformKeyLangs fp k langs).1 lang = some (some s) := by
  rcases uniformKeyLangs_data_def fp k langs with hd | ⟨firstVal, hd⟩
  · rw [hd]; exact h
  · rw [hd, alookup_mapSnd, h]
    simp [isMissing, hs]

/-! ## The natural-number token formulas agree with the literal ceilings -/

theorem ceil_natCast_div_five (a : Nat) : ⌈(a : ℚ) / 5⌉₊ = (a + 4) / 5 := by
  apply le_antisymm
  · rw [Nat.ceil_le, div_le_iff₀ (by norm_num)]
    exact_mod_cast Nat.cast_le.2 (by omega : a ≤ (a + 4) / 5 * 5)
  · have h := Nat.le_ceil ((a : ℚ) / 5)
    have h2 : (a : ℚ) ≤ (⌈(a : ℚ) / 5⌉₊ : ℚ) * 5 := by
      rw [← div_le_iff₀ (by norm_num)]
      exact h
    have h3 : a ≤ ⌈(a : ℚ) / 5⌉₊ * 5 := by exact_mod_cast h2
    omega

theorem estimateItemTokens_eq_ceil (item : TranslationItem) :
    estimateItemTokens item =
      ⌈((9 : ℚ) / 5) * ((estimateTokens item.key + estimateTokens item.fileName +
        (item.context.map (fun p => estimateTokens p.2)).sum : Nat) : ℚ)⌉₊ := by
  unfold estimateItemTokens
  have hq : ((9 : ℚ) / 5) * ((estimateTokens item.key + estimateTokens item.fileName +
      (item.context.map (fun p => estimateTokens p.2)).sum : Nat) : ℚ)
      = ((9 * (estimateTokens item.key + estimateTokens item.fileName +
          (item.context.map (fun p => estimateTokens p.2)).sum) : Nat) : ℚ) / 5 := by
    push_cast
    ring
  rw [hq, ceil_natCast_div_five]

theorem estimateResponseTokensQ_split (items : List TranslationItem) :
    estimateResponseTokensQ items (6 / 5) =
      ((6 * (items.map
          (fun item => itemContextTokens item * item.targets.length)).sum : Nat) : ℚ) / 5
        + ((RESPONSE_OVERHEAD_PER_ITEM *
            (items.map (fun item => item.targets.length)).sum : Nat) : ℚ) := by
  unfold estimateResponseTokensQ
  induction items with
  | nil => simp
  | cons it rest ih =>
    simp only [List.map_cons, List.sum_cons]
    rw [ih]
    push_cast
    ring

theorem estimateResponseTokens_eq_ceil (items : List TranslationItem) :
    estimateResponseTokens items = ⌈estimateResponseTokensQ items (6 / 5)⌉₊ := by
  rw [estimateResponseTokensQ_split, Nat.ceil_add_nat (by positivity),
    ceil_natCast_div_five]
  rfl

/-! ## C2: never overwrite non-whitespace content -/

/-- C2: for every snapshot and every language slot whose value contains at
least one non-whitespace character, the slot's value is unchanged by
`fillGaps`, by `fillUniformValues`, and by `fillAllNullOrWhitespaceOnlyKeys`,
regardless of what donors, indexes, or candidate incoming values exist. -/
theorem C2_never_overwrite (data : TranslationMap) (idx : SourceIndex)
    (fp k lang s : String) (h : getSlot data fp k lang = some (some s))
    (hs : jsTrim s ≠ "") :
    getSlot (fillGaps data idx).1 fp k lang = some (some s) ∧
    getSlot (fillUniformValues data).1 fp k lang = some (some s) ∧
    getSlot (fillAllNullOrWhitespaceOnlyKeys data).1 fp k lang = some (some s) := by
  rw [getSlot_eq_bind] at h
  obtain ⟨langs, hk, hl⟩ := Option.bind_eq_some.1 h
  refine ⟨?_, ?_, ?_⟩
  · rw [getSlot_eq_bind]
    have hdata : (fillGaps data idx).1 =
        mapSnd (fun fp2 ks => mapSnd (fun k2 ls => (fillKeyGaps idx fp2 k2 ls).1) ks)
          data := rfl
    rw [hdata, keyLangs_mapSnd2, hk]
    simpa using fillKeyGaps_keeps_real idx fp k langs lang s hl hs
  · rw [getSlot_eq_bind]
    have hdata : (fillUniformValues data).1 =
        mapSnd (fun fp2 ks => mapSnd (fun k2 ls => (uniformKeyLangs fp2 k2 ls).1) ks)
          data := rfl
    rw [hdata, keyLangs_mapSnd2, hk]
    simpa using uniformKeyLangs_keeps_real fp k langs lang s hl hs
  · rw [getSlot_eq_bind]
    have hdata : (fillAllNullOrWhitespaceOnlyKeys data).1 =
        mapSnd (fun fp2 ks => mapSnd (fun k2 ls => (normalizeKeyLangs fp2 k2 ls).1) ks)
          data := rfl
    rw [hdata, keyLangs_mapSnd2, hk]
    simpa using normalizeKeyLangs_keeps_real fp k langs lang s hl hs

/-- C2 witness: the slot ("f", "K", "ru") holding "Real text" survives all
three passes on a concrete snapshot with a competing donor. -/
theorem C2_never_overwrite_witness :
    getSlot (fillGaps exC2w (buildSourceTextIndex exC2w "en")).1 "f" "K" "ru"
        = some (some "Real text") ∧
    getSlot (fillUniformValues exC2w).1 "f" "K" "ru" = some (some "Real text") ∧
    getSlot (fillAllNullOrWhitespaceOnlyKeys exC2w).1 "f" "K" "ru"
        = some (some "Real text") :=
  C2_never_overwrite exC2w (buildSourceTextIndex exC2w "en") "f" "K" "ru" "Real text"
    (by decide) (by decide)

/-! ## C10: the passes preserve files, keys and language slots -/

theorem snapshotShape_mapSnd2 (F : String → String → Langs → Langs)
    (hF : ∀ fp k ls, (F fp k ls).map Prod.fst = ls.map Prod.fst)
    (data : TranslationMap) :
    snapshotShape (mapSnd (fun fp ks => mapSnd (fun k ls => F fp k ls) ks) data)
      = snapshotShape data := by
  unfold snapshotShape mapSnd
  simp only [List.map_map]
  apply List.map_congr_left
  intro fe _
  simp only [Function.comp]
  congr 1
  rw [List.map_map]
  apply List.map_congr_left
  intro ke _
  simp [Function.comp, hF]

theorem fillKeyGaps_map_fst (idx : SourceIndex) (fp k : String) (ls : Langs) :
    ((fillKeyGaps idx fp k ls).1).map Prod.fst = ls.map Prod.fst := by
  rw [fillKeyGaps_data_def]
  split
  · rfl
  · split
    · rfl
    · split
      · rfl
      · exact mapSnd_map_fst _ _

theorem normalizeKeyLangs_map_fst (fp k : String) (ls : Langs) :
    ((normalizeKeyLangs fp k ls).1).map Prod.fst = ls.map Prod.fst := by
  rw [normalizeKeyLangs_data_def]
  split
  · rfl
  · exact mapSnd_map_fst _ _

theorem uniformKeyLangs_map_fst (fp k : String) (ls : Langs) :
    ((uniformKeyLangs fp k ls).1).map Prod.fst = ls.map Prod.fst := by
  rcases uniformKeyLangs_data_def fp k ls with hd | ⟨firstVal, hd⟩
  · rw [hd]
  · rw [hd]; exact mapSnd_map_fst _ _

/-- C10: each of `fillGaps`, `fillUniformValues` and
`fillAllNullOrWhitespaceOnlyKeys` preserves the set of file paths, the keys in
each file and the language slots of each key: the snapshot shape is unchanged. -/
theorem C10_passes_preserve_shape (data : TranslationMap) (idx : SourceIndex) :
    snapshotShape (fillGaps data idx).1 = snapshotShape data ∧
    snapshotShape (fillUniformValues data).1 = snapshotShape data ∧
    snapshotShape (fillAllNullOrWhitespaceOnlyKeys data).1 = snapshotShape data :=
  ⟨snapshotShape_mapSnd2 _ (fun fp k ls => fillKeyGaps_map_fst idx fp k ls) data,
   snapshotShape_mapSnd2 _ (fun fp k ls => uniformKeyLangs_map_fst fp k ls) data,
   snapshotShape_mapSnd2 _ (fun fp k ls => normalizeKeyLangs_map_fst fp k ls) data⟩

/-! ## C8: all-blank normalization -/

theorem any_not_eq_not_all {α : Type} (l : List α) (p : α → Bool) :
    l.any (fun a => !p a) = !l.all p := by
  induction l with
  | nil => rfl
  | cons a rest ih => simp [List.any_cons, List.all_cons, ih]

theorem normalizeKeyLangs_count_def (fp k : String) (ls : Langs) :
    (normalizeKeyLangs fp k ls).2.1 =
      if ls.all (fun p => isEmptyOrWhitespaceOnly p.2) then
        (ls.filter (fun p => !(p.2 == some " "))).length
      else 0 := by
  unfold normalizeKeyLangs
  rw [any_not_eq_not_all]
  cases h : ls.all (fun p => isEmptyOrWhitespaceOnly p.2) <;> simp [h]

/-- C8 counterexample: on a snapshot whose only key holds a single
whitespace-only (non-null) slot, the pass reports 1 substitution while the
claim's sum over all-null keys is 0, so the claimed count equation fails. -/
theorem C8_count_counterexample :
    (fillAllNullOrWhitespaceOnlyKeys exC8).2.1 = 1 ∧ claimAllNullCount exC8 = 0 := by
  decide

/-- C8 amended: every key all of whose language values are null ends with every
slot equal to one space, and the returned substitutions count equals the sum
over all keys with no non-whitespace value (not only the all-null ones) of the
number of slots not already one space. -/
theorem C8_allblank_amended (data : TranslationMap) :
    (fillAllNullOrWhitespaceOnlyKeys data).2.1 = specNoRealValueCount data ∧
    ∀ fp k ls, ls.all (fun p => p.2 == none) = true →
      ((normalizeKeyLangs fp k ls).1).all (fun p => p.2 == some " ") = true := by
  constructor
  · unfold fillAllNullOrWhitespaceOnlyKeys specNoRealValueCount
    simp only []
    congr 1
    apply List.map_congr_left
    intro fe _
    congr 1
    apply List.map_congr_left
    intro ke _
    exact normalizeKeyLangs_count_def fe.1 ke.1 ke.2
  · intro fp k ls hnull
    have hall : ls.all (fun p => isEmptyOrWhitespaceOnly p.2) = true := by
      rw [List.all_eq_true] at hnull ⊢
      intro p hp
      have := hnull p hp
      have hpn : p.2 = none := by simpa using this
      simp [hpn, isEmptyOrWhitespaceOnly]
    rw [normalizeKeyLangs_data_def, any_not_eq_not_all, hall]
    simp only [Bool.not_true, if_neg (by simp : ¬ (false = true))]
    rw [List.all_eq_true]
    intro q hq
    unfold mapSnd at hq
    obtain ⟨p, _, rfl⟩ := List.mem_map.1 hq
    by_cases hsp : p.2 == some " " <;> simp [hsp]

/-- C8 witness: the amended statement at a concrete all-null snapshot. -/
theorem C8_allblank_amended_witness :
    (fillAllNullOrWhitespaceOnlyKeys exC8w).2.1 = specNoRealValueCount exC8w ∧
    ((normalizeKeyLangs "f" "K" [("en", none), ("ru", none)]).1).all
      (fun p => p.2 == some " ") = true :=
  ⟨(C8_allblank_amended exC8w).1,
   (C8_allblank_amended exC8w).2 "f" "K" [("en", none), ("ru", none)] (by decide)⟩

/-! ## C3 and C7: dynamic batcher -/

theorem batchStep_response_inv (maxP maxR : Nat) (st : BatchState)
    (item : TranslationItem)
    (h1 : ∀ b ∈ st.batches, b.length ≠ 1 → estimateResponseTokens b ≤ maxR)
    (h2 : 2 ≤ st.currentBatch.length → estimateResponseTokens st.currentBatch ≤ maxR) :
    (∀ b ∈ (batchStep maxP maxR st item).batches,
        b.length ≠ 1 → estimateResponseTokens b ≤ maxR) ∧
    (2 ≤ (batchStep maxP maxR st item).currentBatch.length →
        estimateResponseTokens (batchStep maxP maxR st item).currentBatch ≤ maxR) := by
  simp only [batchStep]
  split
  · next hcond =>
    dsimp only
    constructor
    · intro b hb hlen
      rcases List.mem_append.1 hb with hb | hb
      · exact h1 b hb hlen
      · have hbe : b = st.currentBatch := by simpa using hb
        subst hbe
        have hpos := hcond.1
        exact h2 (by omega)
    · intro habs
      simp at habs
  · next hcond =>
    dsimp only
    constructor
    · exact h1
    · intro hlen
      push_neg at hcond
      rcases Nat.eq_zero_or_pos st.currentBatch.length with hz | hp
      · rw [List.length_append, hz] at hlen
        simp at hlen
      · have := (hcond hp).2.1
        omega

theorem foldl_batchStep_response (maxP maxR : Nat) (items : List TranslationItem)
    (st : BatchState)
    (h1 : ∀ b ∈ st.batches, b.length ≠ 1 → estimateResponseTokens b ≤ maxR)
    (h2 : 2 ≤ st.currentBatch.length → estimateResponseTokens st.currentBatch ≤ maxR) :
    (∀ b ∈ (items.foldl (batchStep maxP maxR) st).batches,
        b.length ≠ 1 → estimateResponseTokens b ≤ maxR) ∧
    (2 ≤ (items.foldl (batchStep maxP maxR) st).currentBatch.length →
        estimateResponseTokens (items.foldl (batchStep maxP maxR) st).currentBatch
          ≤ maxR) := by
  induction items generalizing st with
  | nil => exact ⟨h1, h2⟩
  | cons it rest ih =>
    simp only [List.foldl_cons]
    obtain ⟨g1, g2⟩ := batchStep_response_inv maxP maxR st it h1 h2
    exact ih _ g1 g2

/-- C3: for every ordered item sequence and every pair of limits, every batch
returned by `buildDynamicBatches` satisfies
`estimateResponseTokens batch ≤ maxResponseTokens`, except possibly a batch
consisting of exactly one item. -/
theorem C3_response_bound (items : List TranslationItem) (maxP maxR : Nat)
    (b : List TranslationItem) (hb : b ∈ buildDynamicBatches items maxP maxR)
    (hlen : b.length ≠ 1) : estimateResponseTokens b ≤ maxR := by
  have hinv := foldl_batchStep_response maxP maxR items ⟨[], [], SYSTEM_PROMPT_TOKENS⟩
    (by intro b hb; simp at hb) (by intro h; simp at h)
  unfold buildDynamicBatches at hb
  set final := items.foldl (batchStep maxP maxR) ⟨[], [], SYSTEM_PROMPT_TOKENS⟩ with hfinal
  by_cases hemp : final.currentBatch.isEmpty
  · rw [if_pos hemp] at hb
    exact hinv.1 b hb hlen
  · rw [if_neg hemp] at hb
    rcases List.mem_append.1 hb with hb | hb
    · exact hinv.1 b hb hlen
    · have hbe : b = final.currentBatch := by simpa using hb
      have hnz : b.length ≠ 0 := by
        intro h0
        exact hemp (by rw [List.isEmpty_iff, ← List.length_eq_zero, ← hbe]; exact h0)
      rw [hbe]
      refine hinv.2 ?_
      rw [← hbe]
      omega

/-- C3 witness: a two-item batch produced at large limits satisfies the bound. -/
theorem C3_response_bound_witness :
    [exItemA, exItemA] ∈ buildDynamicBatches [exItemA, exItemA] 100000 100000 ∧
    estimateResponseTokens [exItemA, exItemA] ≤ 100000 :=
  ⟨by decide,
   C3_response_bound [exItemA, exItemA] 100000 100000 [exItemA, exItemA]
     (by decide) (by decide)⟩

theorem batchStep_join (maxP maxR : Nat) (st : BatchState) (it : TranslationItem)
    (hne : ∀ b ∈ st.batches, b ≠ []) :
    ((batchStep maxP maxR st it).batches.flatten
        ++ (batchStep maxP maxR st it).currentBatch
      = st.batches.flatten ++ st.currentBatch ++ [it]) ∧
    (∀ b ∈ (batchStep maxP maxR st it).batches, b ≠ []) := by
  simp only [batchStep]
  split
  · next hcond =>
    constructor
    · simp [List.flatten_append, List.append_assoc]
    · intro b hb
      rcases List.mem_append.1 hb with hb | hb
      · exact hne b hb
      · have hbe : b = st.currentBatch := by simpa using hb
        subst hbe
        intro habs
        rw [habs] at hcond
        simp at hcond
  · next hcond =>
    constructor
    · simp [List.append_assoc]
    · exact hne

theorem foldl_batchStep_join (maxP maxR : Nat) (items : List TranslationItem)
    (st : BatchState) (hne : ∀ b ∈ st.batches, b ≠ []) :
    (items.foldl (batchStep maxP maxR) st).batches.flatten
        ++ (items.foldl (batchStep maxP maxR) st).currentBatch
      = st.batches.flatten ++ st.currentBatch ++ items ∧
    ∀ b ∈ (items.foldl (batchStep maxP maxR) st).batches, b ≠ [] := by
  induction items generalizing st with
  | nil => exact ⟨by simp, hne⟩
  | cons it rest ih =>
    simp only [List.foldl_cons]
    obtain ⟨hj, hn⟩ := batchStep_join maxP maxR st it hne
    obtain ⟨hj2, hn2⟩ := ih (batchStep maxP maxR st it) hn
    refine ⟨?_, hn2⟩
    rw [hj2, hj]
    simp [List.append_assoc]

/-- C7: the batches returned by `buildDynamicBatches` concatenate, in order,
to exactly the input sequence; no batch is empty; an empty input yields an
empty batch list. -/
theorem C7_batches_partition (items : List TranslationItem) (maxP maxR : Nat) :
    (buildDynamicBatches items maxP maxR).flatten = items ∧
    (∀ b ∈ buildDynamicBatches items maxP maxR, b ≠ []) ∧
    (items = [] → buildDynamicBatches items maxP maxR = []) := by
  have h := foldl_batchStep_join maxP maxR items ⟨[], [], SYSTEM_PROMPT_TOKENS⟩
    (by intro b hb; simp at hb)
  unfold buildDynamicBatches
  set final := items.foldl (batchStep maxP maxR) ⟨[], [], SYSTEM_PROMPT_TOKENS⟩
    with hfinal
  have hjoin : final.batches.flatten ++ final.currentBatch = items := by
    simpa using h.1
  refine ⟨?_, ?_, ?_⟩
  · by_cases hemp : final.currentBatch.isEmpty
    · rw [if_pos hemp]
      rw [List.isEmpty_iff] at hemp
      simpa [hemp] using hjoin
    · rw [if_neg hemp]
      simpa [List.flatten_append] using hjoin
  · intro b hb
    by_cases hemp : final.currentBatch.isEmpty
    · rw [if_pos hemp] at hb
      exact h.2 b hb
    · rw [if_neg hemp] at hb
      rcases List.mem_append.1 hb with hb | hb
      · exact h.2 b hb
      · have hbe : b = final.currentBatch := by simpa using hb
        subst hbe
        exact fun habs => hemp (List.isEmpty_iff.2 habs)
  · intro hit
    subst hit
    rfl

/-- C7 witness: at a concrete input the batches concatenate to the input and
the concrete batch [exItemA] is non-empty. -/
theorem C7_batches_partition_witness :
    (buildDynamicBatches [exItemA, exItemA] 100000 40).flatten = [exItemA, exItemA] ∧
    [exItemA] ≠ ([] : List TranslationItem) :=
  ⟨(C7_batches_partition [exItemA, exItemA] 100000 40).1,
   (C7_batches_partition [exItemA, exItemA] 100000 40).2.1 [exItemA] (by decide)⟩

/-! ## C4: the APPLY step overwrites non-whitespace content -/

/-- C4 (code-bug evidence): the APPLY loop of scripts/translate.ts writes every
valid oracle value for a key present in the file without re-checking that the
slot is still fillable. At this input the slot ("f","K","ru") holds the
non-whitespace text "Real text", the oracle returns "Override" for it, and
apply overwrites it — contradicting the spec's fillable-at-apply-time rule. -/
theorem C4_apply_overwrites_nonwhitespace :
    getSlot exC4 "f" "K" "ru" = some (some "Real text") ∧
    jsTrim "Real text" ≠ "" ∧
    hasValidTranslationValue (some "Override") = true ∧
    getSlot (applyBatchResults exC4 "f" [("K", [("ru", "Override")])]).1 "f" "K" "ru"
      = some (some "Override") :=
  ⟨by decide, by decide, by decide, by decide⟩

/-! ## C6: huge-key per-language routing -/

theorem hugeLangStep_calls (oracle : Oracle) (item : TranslationItem)
    (acc : List (String × String) × Nat) (lang : String) :
    (hugeLangStep oracle item acc lang).2 = acc.2 + 1 := by
  unfold hugeLangStep
  cases oracle acc.2 with
  | none => rfl
  | some processed =>
    simp only []
    cases alookup processed item.key with
    | none => rfl
    | some kv =>
      simp only []
      cases alookup kv lang with
      | none => rfl
      | some text => by_cases ht : text = "" <;> simp [ht]

theorem foldl_hugeLangStep_calls (oracle : Oracle) (item : TranslationItem)
    (ts : List String) (acc : List (String × String) × Nat) :
    (ts.foldl (hugeLangStep oracle item) acc).2 = acc.2 + ts.length := by
  induction ts generalizing acc with
  | nil => simp
  | cons t rest ih =>
    simp only [List.foldl_cons]
    rw [ih, hugeLangStep_calls]
    simp only [List.length_cons]
    omega

theorem hugeItemByLanguage_calls (oracle : Oracle) (item : TranslationItem)
    (start : Nat) :
    (hugeItemByLanguage oracle item start).2 = start + item.targets.length := by
  unfold hugeItemByLanguage
  rw [foldl_hugeLangStep_calls]

theorem foldl_hugeKeysStep_calls (oracle : Oracle) (items : List TranslationItem)
    (acc : OracleResults × Nat) :
    (items.foldl (hugeKeysStep oracle) acc).2
      = acc.2 + (items.map (fun it => it.targets.length)).sum := by
  induction items generalizing acc with
  | nil => simp
  | cons it rest ih =>
    simp only [List.foldl_cons]
    rw [ih]
    unfold hugeKeysStep
    simp only []
    rw [hugeItemByLanguage_calls]
    simp [List.map_cons, Nat.add_assoc]

theorem translateHugeKeysByLanguage_calls (oracle : Oracle)
    (items : List TranslationItem) (start : Nat) :
    (translateHugeKeysByLanguage oracle items start).2
      = start + (items.map (fun it => it.targets.length)).sum := by
  unfold translateHugeKeysByLanguage
  rw [foldl_hugeKeysStep_calls]

/-- C6 counterexample: in the batch [exItemA, exItemB], exItemB's single-item
response estimate (68 tokens) exceeds half of maxResponseTokens = 100 and
exItemB has two target languages, yet the per-language split is not taken —
the code tests `items[0].targets.length`, and the first item has one target —
so the batch is sent as one combined exchange (one oracle call). -/
theorem C6_route_counterexample :
    exItemB ∈ [exItemA, exItemB] ∧
    100 < 2 * estimateResponseTokens [exItemB] ∧
    1 < exItemB.targets.length ∧
    translateRouteHuge 100 [exItemA, exItemB] = false ∧
    (translateFileBatch 100 (fun _ => some []) [exItemA, exItemB] 0).2 = 1 :=
  ⟨by decide, by decide, by decide, by decide, by decide⟩

/-- C6 amended: the per-language split triggers exactly when some item's
single-item response estimate exceeds half the ceiling AND the first item of
the batch has more than one target; when it triggers, every item of the batch
is translated with one oracle exchange per target language, and per-language
failures are tolerated: the batch call always returns a result (never throws)
no matter which exchanges fail. -/
theorem C6_huge_route (maxR : Nat) (oracle : Oracle) (items : List TranslationItem)
    (hroute : translateRouteHuge maxR items = true) :
    (translateFileBatch maxR oracle items 0).1.isSome = true ∧
    (translateFileBatch maxR oracle items 0).2
      = (items.map (fun it => it.targets.length)).sum := by
  have hne : items.isEmpty = false := by
    cases items with
    | nil => simp [translateRouteHuge] at hroute
    | cons a l => rfl
  unfold translateFileBatch
  rw [hne]
  simp only [Bool.false_eq_true, if_false, hroute, if_true]
  exact ⟨rfl, by rw [translateHugeKeysByLanguage_calls]; omega⟩

/-- C6 witness: a huge-routed two-item batch with an always-failing oracle
still returns a result, with one exchange per item-target (3 in total). -/
theorem C6_huge_route_witness :
    (translateFileBatch 100 (fun _ => none) [exItemB, exItemA] 0).1.isSome = true ∧
    (translateFileBatch 100 (fun _ => none) [exItemB, exItemA] 0).2 = 3 := by
  have h := C6_huge_route 100 (fun _ => none) [exItemB, exItemA] (by decide)
  exact ⟨h.1, by rw [h.2]; decide⟩

/-! ## C5: retry policy -/

theorem translateFileBatch_nonhuge_calls (maxR : Nat) (oracle : Oracle)
    (items : List TranslationItem) (start : Nat)
    (hroute : translateRouteHuge maxR items = false) :
    start ≤ (translateFileBatch maxR oracle items start).2 ∧
    (translateFileBatch maxR oracle items start).2 ≤ start + 2 ∧
    ((translateFileBatch maxR oracle items start).1 = none →
      (translateFileBatch maxR oracle items start).2 = start + 2) := by
  unfold translateFileBatch
  by_cases he : items.isEmpty
  · simp [he]
  · rw [if_neg he, if_neg (by simp [hroute])]
    cases h0 : oracle start with
    | some r =>
      dsimp only
      exact ⟨by omega, by omega, by intro h; cases h⟩
    | none =>
      cases h1 : oracle (start + 1) with
      | some r =>
        dsimp only
        exact ⟨by omega, by omega, by intro h; cases h⟩
      | none =>
        dsimp only
        exact ⟨by omega, by omega, fun _ => rfl⟩

theorem processBatches_runs_all (maxR : Nat) (oracleFor : Nat → Oracle)
    (data : TranslationMap) (fp : String)
    (batches : List (List TranslationItem)) :
    (processBatches maxR oracleFor data fp batches).2.2 = batches.length := by
  induction batches generalizing oracleFor data with
  | nil => rfl
  | cons b rest ih =>
    simp only [processBatches]
    rw [ih]
    simp [Nat.add_comm]

/-- C5 counterexample: with an always-failing oracle, one run makes 6 oracle
exchanges for the batch, not at most 3: each of the 3 orchestrator attempts
internally retries the failed exchange once (translator.ts lines 89-96). -/
theorem C5_retries_counterexample :
    (runBatchRetries 1000 (fun _ => none) exC4 "f" [exItemA]).llmCalls = 6 ∧
    ¬ (runBatchRetries 1000 (fun _ => none) exC4 "f" [exItemA]).llmCalls ≤ 3 :=
  ⟨by decide, by decide⟩

/-- C5 amended: for a batch not routed to per-language processing, the
orchestrator makes at most 3 translate attempts, each issuing at most 2 oracle
exchanges (so at most 6 in total, not 3); the sleeps before attempts 1, 2, 3
are 0, 5000 ms and 15000 ms (the performed sleeps are the matching prefix of
[5000, 15000]); after the third failed attempt the batch is counted failed
with the snapshot untouched and nothing applied; and the batch loop always
processes every batch in order regardless of failures. -/
theorem C5_retry_policy (maxR : Nat) (oracle : Oracle) (data : TranslationMap)
    (fp : String) (batch : List TranslationItem)
    (hroute : translateRouteHuge maxR batch = false) :
    (runBatchRetries maxR oracle data fp batch).attempts ≤ 3 ∧
    (runBatchRetries maxR oracle data fp batch).llmCalls
      ≤ 2 * (runBatchRetries maxR oracle data fp batch).attempts ∧
    (runBatchRetries maxR oracle data fp batch).sleeps
      = [5000, 15000].take ((runBatchRetries maxR oracle data fp batch).attempts - 1) ∧
    ((runBatchRetries maxR oracle data fp batch).failed = 1 →
      (runBatchRetries maxR oracle data fp batch).attempts = 3 ∧
      (runBatchRetries maxR oracle data fp batch).data = data ∧
      (runBatchRetries maxR oracle data fp batch).applied = 0) ∧
    (∀ oracleFor batches,
      (processBatches maxR oracleFor data fp batches).2.2 = batches.length) := by
  have hc0 := translateFileBatch_nonhuge_calls maxR oracle batch 0 hroute
  have hc1 := translateFileBatch_nonhuge_calls maxR oracle batch
    (translateFileBatch maxR oracle batch 0).2 hroute
  have hc2 := translateFileBatch_nonhuge_calls maxR oracle batch
    (translateFileBatch maxR oracle batch
      (translateFileBatch maxR oracle batch 0).2).2 hroute
  simp only [runBatchRetries]
  cases h0 : (translateFileBatch maxR oracle batch 0).1 with
  | some results =>
    dsimp only
    refine ⟨?_, ?_, ?_, ?_, ?_⟩
    · omega
    · have := hc0.2.1
      omega
    · rfl
    · intro h
      cases h
    · intro oracleFor batches
      exact processBatches_runs_all maxR oracleFor data fp batches
  | none =>
    dsimp only
    cases h1 : (translateFileBatch maxR oracle batch
        (translateFileBatch maxR oracle batch 0).2).1 with
    | some results =>
      dsimp only
      refine ⟨?_, ?_, ?_, ?_, ?_⟩
      · omega
      · have ha := hc0.2.1
        have hb := hc1.2.1
        omega
      · rfl
      · intro h
        cases h
      · intro oracleFor batches
        exact processBatches_runs_all maxR oracleFor data fp batches
    | none =>
      dsimp only
      cases h2 : (translateFileBatch maxR oracle batch
          (translateFileBatch maxR oracle batch
            (translateFileBatch maxR oracle batch 0).2).2).1 with
      | some results =>
        dsimp only
        refine ⟨?_, ?_, ?_, ?_, ?_⟩
        · omega
        · have ha := hc0.2.1
          have hb := hc1.2.1
          have hd := hc2.2.1
          omega
        · rfl
        · intro h
          cases h
        · intro oracleFor batches
          exact processBatches_runs_all maxR oracleFor data fp batches
      | none =>
        dsimp only
        refine ⟨?_, ?_, ?_, ?_, ?_⟩
        · omega
        · have ha := hc0.2.1
          have hb := hc1.2.1
          have hd := hc2.2.1
          omega
        · rfl
        · exact fun _ => ⟨rfl, rfl, rfl⟩
        · intro oracleFor batches
          exact processBatches_runs_all maxR oracleFor data fp batches

/-- C5 witness: the amended statement at a concrete failing oracle. -/
theorem C5_retry_policy_witness :
    (runBatchRetries 1000 (fun _ => none) exC9 "f" [exItemA]).attempts ≤ 3 ∧
    (runBatchRetries 1000 (fun _ => none) exC9 "f" [exItemA]).sleeps
      = [5000, 15000].take
          ((runBatchRetries 1000 (fun _ => none) exC9 "f" [exItemA]).attempts - 1) ∧
    (processBatches 1000 (fun _ => fun _ => none) exC9 "f" [[exItemA]]).2.2 = 1 := by
  have h := C5_retry_policy 1000 (fun _ => none) exC9 "f" [exItemA] (by decide)
  exact ⟨h.1, h.2.2.1, by simpa using h.2.2.2.2 (fun _ => fun _ => none) [[exItemA]]⟩

/-! ## C9: pass order in the fill-gaps script -/

theorem normalizeKeyLangs_events_def (fp k : String) (ls : Langs) :
    (normalizeKeyLangs fp k ls).2.2 =
      if ls.any (fun p => !isEmptyOrWhitespaceOnly p.2) then []
      else ls.filterMap (fun p =>
        if p.2 == some " " then none
        else some (LogEvent.normalizeEmpty fp k p.1 p.2)) := by
  unfold normalizeKeyLangs
  by_cases h : ls.any (fun p => !isEmptyOrWhitespaceOnly p.2) <;> simp [h]

theorem fillKeyGaps_events_def (idx : SourceIndex) (fp k : String) (ls : Langs) :
    (fillKeyGaps idx fp k ls).2.2 = [] ∨
      ∃ donors, (fillKeyGaps idx fp k ls).2.2 =
        ls.filterMap (fun p =>
          if isMissing p.2 then
            (donorValue donors p.1).map (fun newVal =>
              LogEvent.substitution fp k p.1 p.2 newVal)
          else none) := by
  unfold fillKeyGaps
  split
  · exact Or.inl rfl
  · split
    · exact Or.inl rfl
    · split
      · exact Or.inl rfl
      · exact Or.inr ⟨_, rfl⟩

theorem uniformKeyLangs_events_def (fp k : String) (ls : Langs) :
    (uniformKeyLangs fp k ls).2.2 = [] ∨
      ∃ (firstVal : String) (ms : List String), (uniformKeyLangs fp k ls).2.2 =
        ms.map (fun l => LogEvent.uniformFill fp k l firstVal) := by
  simp only [uniformKeyLangs]
  split
  · exact Or.inl rfl
  · split
    · exact Or.inl rfl
    · split
      · exact Or.inl rfl
      · split
        · exact Or.inl rfl
        · exact Or.inr ⟨_, _, rfl⟩

theorem fillAllNull_events_normalize (data : TranslationMap) :
    ∀ e ∈ (fillAllNullOrWhitespaceOnlyKeys data).2.2,
      LogEvent.isNormalizeEmpty e = true := by
  intro e he
  have he2 : e ∈ data.flatMap (fun fe =>
      fe.2.flatMap (fun ke => (normalizeKeyLangs fe.1 ke.1 ke.2).2.2)) := he
  rw [List.mem_flatMap] at he2
  obtain ⟨fe, _, he2⟩ := he2
  rw [List.mem_flatMap] at he2
  obtain ⟨ke, _, he2⟩ := he2
  rw [normalizeKeyLangs_events_def] at he2
  split at he2
  · simp at he2
  · rw [List.mem_filterMap] at he2
    obtain ⟨p, _, hp⟩ := he2
    by_cases hsp : p.2 == some " "
    · simp [hsp] at hp
    · simp only [hsp, Bool.false_eq_true, if_false, Option.some.injEq] at hp
      rw [← hp]
      rfl

theorem fillGaps_events_substitution (data : TranslationMap) (idx : SourceIndex) :
    ∀ e ∈ (fillGaps data idx).2.2, LogEvent.isSubstitution e = true := by
  intro e he
  have he2 : e ∈ data.flatMap (fun fe =>
      fe.2.flatMap (fun ke => (fillKeyGaps idx fe.1 ke.1 ke.2).2.2)) := he
  rw [List.mem_flatMap] at he2
  obtain ⟨fe, _, he2⟩ := he2
  rw [List.mem_flatMap] at he2
  obtain ⟨ke, _, he2⟩ := he2
  rcases fillKeyGaps_events_def idx fe.1 ke.1 ke.2 with hd | ⟨donors, hd⟩
  · rw [hd] at he2; simp at he2
  · rw [hd, List.mem_filterMap] at he2
    obtain ⟨p, _, hp⟩ := he2
    by_cases hm : isMissing p.2
    · simp only [hm, if_true] at hp
      rw [Option.map_eq_some'] at hp
      obtain ⟨v, _, hv⟩ := hp
      rw [← hv]
      rfl
    · simp [hm] at hp

theorem fillUniform_events_uniform (data : TranslationMap) :
    ∀ e ∈ (fillUniformValues data).2.2, LogEvent.isUniformFill e = true := by
  intro e he
  have he2 : e ∈ data.flatMap (fun fe =>
      fe.2.flatMap (fun ke => (uniformKeyLangs fe.1 ke.1 ke.2).2.2)) := he
  rw [List.mem_flatMap] at he2
  obtain ⟨fe, _, he2⟩ := he2
  rw [List.mem_flatMap] at he2
  obtain ⟨ke, _, he2⟩ := he2
  rcases uniformKeyLangs_events_def fe.1 ke.1 ke.2 with hd | ⟨firstVal, ms, hd⟩
  · rw [hd] at he2; simp at he2
  · rw [hd, List.mem_map] at he2
    obtain ⟨l, _, hl⟩ := he2
    rw [← hl]
    rfl

theorem isNormalizeEmpty_excludes (e : LogEvent)
    (h : LogEvent.isNormalizeEmpty e = true) :
    LogEvent.isSubstitution e = false ∧ LogEvent.isUniformFill e = false := by
  cases e <;> simp_all [LogEvent.isNormalizeEmpty, LogEvent.isSubstitution,
    LogEvent.isUniformFill]

/-- C9 counterexample: on a concrete snapshot the script's log begins with a
normalization event (pass 0 of scripts/fill-gaps.ts) and only then contains a
fill-pass substitution event, so the all-blank normalization pass does not
execute after the fill pass — it executes first. -/
theorem C9_order_counterexample :
    (fillGapsScript exC9).2.2 =
      [LogEvent.normalizeEmpty "f" "Z" "en" none,
       LogEvent.substitution "f" "R" "ru" none "Del-ru"] ∧
    LogEvent.isNormalizeEmpty
      ((fillGapsScript exC9).2.2.getD 0 (LogEvent.uniformFill "" "" "" "")) = true ∧
    LogEvent.isSubstitution
      ((fillGapsScript exC9).2.2.getD 1 (LogEvent.uniformFill "" "" "" "")) = true :=
  ⟨by decide, by decide, by decide⟩

/-- C9 amended: in scripts/fill-gaps.ts the all-blank normalization executes
FIRST (pass 0), before the fill pass and the uniform pass: in the script's
log, every normalization event strictly precedes every substitution or
uniform-fill event. -/
theorem C9_normalization_first (data : TranslationMap) (i j : Nat) (e e2 : LogEvent)
    (hi : (fillGapsScript data).2.2[i]? = some e)
    (hj : (fillGapsScript data).2.2[j]? = some e2)
    (hne : LogEvent.isNormalizeEmpty e = true)
    (hse : LogEvent.isSubstitution e2 = true ∨ LogEvent.isUniformFill e2 = true) :
    i < j := by
  have hT : (fillGapsScript data).2.2 =
      (fillAllNullOrWhitespaceOnlyKeys data).2.2 ++
        ((fillGaps (fillAllNullOrWhitespaceOnlyKeys data).1
            (buildSourceTextIndex (fillAllNullOrWhitespaceOnlyKeys data).1 "en")).2.2 ++
         (fillUniformValues (fillGaps (fillAllNullOrWhitespaceOnlyKeys data).1
            (buildSourceTextIndex (fillAllNullOrWhitespaceOnlyKeys data).1 "en")).1).2.2)
      := by
    simp only [fillGapsScript]
    rw [List.append_assoc]
  rw [hT] at hi hj
  have hiN : i < (fillAllNullOrWhitespaceOnlyKeys data).2.2.length := by
    by_contra hge
    push_neg at hge
    rw [List.getElem?_append_right hge] at hi
    have hmem := List.getElem?_mem hi
    rcases List.mem_append.1 hmem with hm | hm
    · have := fillGaps_events_substitution _ _ e hm
      have hx := isNormalizeEmpty_excludes e hne
      rw [this] at hx
      exact absurd hx.1 (by simp)
    · have := fillUniform_events_uniform _ e hm
      have hx := isNormalizeEmpty_excludes e hne
      rw [this] at hx
      exact absurd hx.2 (by simp)
  have hjN : (fillAllNullOrWhitespaceOnlyKeys data).2.2.length ≤ j := by
    by_contra hlt
    push_neg at hlt
    rw [List.getElem?_append_left hlt] at hj
    have hmem := List.getElem?_mem hj
    have h2 := fillAllNull_events_normalize data e2 hmem
    have hx := isNormalizeEmpty_excludes e2 h2
    rcases hse with hs | hs
    · rw [hs] at hx; exact absurd hx.1 (by simp)
    · rw [hs] at hx; exact absurd hx.2 (by simp)
  omega

/-- C9 witness: the ordering statement at the concrete snapshot, indices 0, 1. -/
theorem C9_normalization_first_witness :
    (fillGapsScript exC9).2.2[0]? = some (LogEvent.normalizeEmpty "f" "Z" "en" none) ∧
    (fillGapsScript exC9).2.2[1]? = some (LogEvent.substitution "f" "R" "ru" none "Del-ru") ∧
    (0 : Nat) < 1 :=
  ⟨by decide, by decide,
   C9_normalization_first exC9 0 1 (LogEvent.normalizeEmpty "f" "Z" "en" none)
     (LogEvent.substitution "f" "R" "ru" none "Del-ru")
     (by decide) (by decide) (by decide) (Or.inl (by decide))⟩

/-! ## C1: lemmas about donors, the index and the fill pass -/

theorem mem_mapSnd {α β : Type} (f : String → α → β) (l : List (String × α))
    (k : String) (v : β) :
    (k, v) ∈ mapSnd f l ↔ ∃ v0, (k, v0) ∈ l ∧ v = f k v0 := by
  unfold mapSnd
  rw [List.mem_map]
  constructor
  · rintro ⟨⟨a, b⟩, hp, hpe⟩
    cases hpe
    exact ⟨b, hp, rfl⟩
  · rintro ⟨v0, h0, rfl⟩
    exact ⟨(k, v0), h0, rfl⟩

theorem mapSnd_eq_self {α : Type} (f : String → α → α) (l : List (String × α))
    (h : ∀ k v, f k v = v) : mapSnd f l = l := by
  induction l with
  | nil => rfl
  | cons p rest ih =>
    show (p.1, f p.1 p.2) :: mapSnd f rest = p :: rest
    rw [h, Prod.mk.eta, ih]

theorem slotFill_nil (lang : String) (v : Option String) :
    slotFill [] lang v = v := by
  unfold slotFill donorValue
  split <;> rfl

theorem fillKeyGaps_data_slotFill (idx : SourceIndex) (fp k : String)
    (langs : Langs) :
    (fillKeyGaps idx fp k langs).1 =
      match getSourceText langs "en" with
      | none => langs
      | some s => mapSnd (slotFill (indexGetD idx s)) langs := by
  rw [fillKeyGaps_data_def]
  cases getSourceText langs "en" with
  | none => rfl
  | some s =>
    simp only []
    cases hA : alookup idx s with
    | none =>
      dsimp only
      rw [mapSnd_eq_self]
      intro l v
      have : indexGetD idx s = [] := by unfold indexGetD; rw [hA]; rfl
      rw [this, slotFill_nil]
    | some donors =>
      dsimp only
      have hget : indexGetD idx s = donors := by unfold indexGetD; rw [hA]; rfl
      by_cases hde : donors.isEmpty
      · rw [if_pos hde, hget]
        have hdnil : donors = [] := by rwa [List.isEmpty_iff] at hde
        rw [hdnil, mapSnd_eq_self]
        intro l v
        exact slotFill_nil l v
      · rw [if_neg hde, hget]

theorem mem_translationsOf (langs : Langs) (l w : String) :
    (l, w) ∈ translationsOf langs ↔ (l, some w) ∈ langs ∧ ¬ jsTrim w = "" := by
  unfold translationsOf
  rw [List.mem_filterMap]
  constructor
  · rintro ⟨p, hp, hpe⟩
    cases hv : p.2 with
    | none => rw [hv] at hpe; cases hpe
    | some s =>
      rw [hv] at hpe
      dsimp only at hpe
      by_cases hs : jsTrim s == ""
      · rw [if_pos hs] at hpe; cases hpe
      · rw [if_neg hs] at hpe
        injection hpe with h1
        injection h1 with h2 h3
        subst h2
        subst h3
        refine ⟨?_, by simpa using hs⟩
        have hpeq : (p.1, some s) = p := by
          cases p
          simp_all
        rwa [hpeq]
  · rintro ⟨hmem, hw⟩
    refine ⟨(l, some w), hmem, ?_⟩
    simp only []
    rw [if_neg (by simpa using hw)]

theorem donorValue_isSome_of (donors : List DonorEntry) (lang : String)
    (d : DonorEntry) (hd : d ∈ donors) (w : String)
    (hw : alookup d.translations lang = some w) (hne : w ≠ "") :
    (donorValue donors lang).isSome := by
  unfold donorValue
  induction donors with
  | nil => cases hd
  | cons a rest ih =>
    rw [List.findSome?_cons]
    rcases List.mem_cons.1 hd with rfl | hd2
    · rw [hw]
      dsimp only
      rw [if_neg (by simpa using hne)]
      rfl
    · cases hfa : (match alookup a.translations lang with
        | none => none
        | some s => if s == "" then none else some s) with
      | some b => rfl
      | none => exact ih hd2

theorem donorValue_eq_some_mem (donors : List DonorEntry) (lang w : String)
    (h : donorValue donors lang = some w) :
    ∃ d ∈ donors, alookup d.translations lang = some w ∧ w ≠ "" := by
  unfold donorValue at h
  induction donors with
  | nil => cases h
  | cons a rest ih =>
    rw [List.findSome?_cons] at h
    cases hfa : (match alookup a.translations lang with
      | none => none
      | some s => if s == "" then none else some s) with
    | some b =>
      rw [hfa] at h
      dsimp only at h
      have hbw : b = w := by injection h
      cases hla : alookup a.translations lang with
      | none => rw [hla] at hfa; cases hfa
      | some s =>
        rw [hla] at hfa
        dsimp only at hfa
        by_cases hs : s == ""
        · rw [if_pos hs] at hfa; cases hfa
        · rw [if_neg hs] at hfa
          have hsb : s = b := by injection hfa
          refine ⟨a, List.mem_cons_self a rest, ?_, ?_⟩
          · rw [hla, hsb, hbw]
          · intro h0
            exact hs (by rw [hsb, hbw, h0]; rfl)
    | none =>
      rw [hfa] at h
      dsimp only at h
      obtain ⟨d, hd, hrest⟩ := ih h
      exact ⟨d, List.mem_cons_of_mem a hd, hrest⟩

theorem indexGetD_nil (t : String) : indexGetD [] t = [] := rfl

theorem indexGetD_cons_self (u t : String) (l : List DonorEntry)
    (rest : SourceIndex) (h : (u == t) = true) :
    indexGetD ((u, l) :: rest) t = l := by
  unfold indexGetD alookup
  simp [List.find?_cons, h]

theorem indexGetD_cons_ne (u t : String) (l : List DonorEntry)
    (rest : SourceIndex) (h : (u == t) = false) :
    indexGetD ((u, l) :: rest) t = indexGetD rest t := by
  unfold indexGetD alookup
  simp [List.find?_cons, h]

theorem mem_indexGetD_insert (idx : SourceIndex) (s : String) (e2 e : DonorEntry)
    (t : String) :
    e ∈ indexGetD (indexInsert idx s e2) t ↔
      e ∈ indexGetD idx t ∨ (t = s ∧ e = e2) := by
  induction idx with
  | nil =>
    show e ∈ indexGetD [(s, [e2])] t ↔ e ∈ indexGetD [] t ∨ (t = s ∧ e = e2)
    by_cases hts : t = s
    · rw [indexGetD_cons_self s t [e2] [] (by simp [hts.symm]), indexGetD_nil]
      simp [hts]
    · rw [indexGetD_cons_ne s t [e2] []
          (by rw [beq_eq_false_iff_ne]; exact fun h => hts h.symm)]
      simp [hts, indexGetD_nil]
  | cons ue rest ih =>
    obtain ⟨u, l⟩ := ue
    show e ∈ indexGetD (if u == s then (u, l ++ [e2]) :: rest
        else (u, l) :: indexInsert rest s e2) t ↔ _
    by_cases hus : u = s
    · rw [if_pos (by simp [hus])]
      by_cases htu : t = u
      · rw [indexGetD_cons_self u t (l ++ [e2]) rest (by simp [htu.symm]),
          indexGetD_cons_self u t l rest (by simp [htu.symm])]
        have hts : t = s := htu.trans hus
        simp [List.mem_append, hts]
      · have hb : (u == t) = false := by
          rw [beq_eq_false_iff_ne]; exact fun h => htu h.symm
        rw [indexGetD_cons_ne u t (l ++ [e2]) rest hb,
          indexGetD_cons_ne u t l rest hb]
        have hts : ¬ t = s := by rw [← hus]; exact htu
        simp [hts]
    · rw [if_neg (by simp [hus])]
      by_cases htu : t = u
      · rw [indexGetD_cons_self u t l (indexInsert rest s e2) (by simp [htu.symm]),
          indexGetD_cons_self u t l rest (by simp [htu.symm])]
        have hts : ¬ t = s := by rw [htu]; exact hus
        simp [hts]
      · have hb : (u == t) = false := by
          rw [beq_eq_false_iff_ne]; exact fun h => htu h.symm
        rw [indexGetD_cons_ne u t l (indexInsert rest s e2) hb,
          indexGetD_cons_ne u t l rest hb]
        exact ih

theorem mem_indexGetD_addKey (sl fp : String) (idx : SourceIndex)
    (ke : String × Langs) (e : DonorEntry) (t : String) :
    e ∈ indexGetD (indexAddKey sl fp idx ke) t ↔
      e ∈ indexGetD idx t ∨
        (getSourceText ke.2 sl = some t ∧ translationsOf ke.2 ≠ [] ∧
          e = ⟨fp, ke.1, translationsOf ke.2⟩) := by
  unfold indexAddKey
  cases hst : getSourceText ke.2 sl with
  | none => simp [hst]
  | some s =>
    dsimp only
    by_cases hemp : (translationsOf ke.2).isEmpty
    · rw [if_pos hemp]
      have : translationsOf ke.2 = [] := by rwa [List.isEmpty_iff] at hemp
      simp [this]
    · rw [if_neg hemp]
      rw [mem_indexGetD_insert]
      have hne : translationsOf ke.2 ≠ [] :=
        fun h => hemp (List.isEmpty_iff.2 h)
      constructor
      · rintro (h | ⟨rfl, rfl⟩)
        · exact Or.inl h
        · exact Or.inr ⟨rfl, hne, rfl⟩
      · rintro (h | ⟨hsome, _, rfl⟩)
        · exact Or.inl h
        · obtain rfl : s = t := by injection hsome
          exact Or.inr ⟨rfl, rfl⟩

theorem mem_indexGetD_addFileKeys (sl fp : String) (ks : FileKeys)
    (idx : SourceIndex) (e : DonorEntry) (t : String) :
    e ∈ indexGetD (ks.foldl (indexAddKey sl fp) idx) t ↔
      e ∈ indexGetD idx t ∨
        ∃ ke ∈ ks, getSourceText ke.2 sl = some t ∧ translationsOf ke.2 ≠ [] ∧
          e = ⟨fp, ke.1, translationsOf ke.2⟩ := by
  induction ks generalizing idx with
  | nil => simp
  | cons ke rest ih =>
    simp only [List.foldl_cons]
    rw [ih, mem_indexGetD_addKey]
    constructor
    · rintro ((h | h) | ⟨ke2, hke2, h⟩)
      · exact Or.inl h
      · exact Or.inr ⟨ke, List.mem_cons_self ke rest, h⟩
      · exact Or.inr ⟨ke2, List.mem_cons_of_mem ke hke2, h⟩
    · rintro (h | ⟨ke2, hke2, h⟩)
      · exact Or.inl (Or.inl h)
      · rcases List.mem_cons.1 hke2 with rfl | hke3
        · exact Or.inl (Or.inr h)
        · exact Or.inr ⟨ke2, hke3, h⟩

theorem mem_indexGetD_build_aux (sl : String) (data : TranslationMap)
    (idx : SourceIndex) (e : DonorEntry) (t : String) :
    e ∈ indexGetD (data.foldl (indexAddFile sl) idx) t ↔
      e ∈ indexGetD idx t ∨
        ∃ fe ∈ data, ∃ ke ∈ fe.2,
          getSourceText ke.2 sl = some t ∧ translationsOf ke.2 ≠ [] ∧
          e = ⟨fe.1, ke.1, translationsOf ke.2⟩ := by
  induction data generalizing idx with
  | nil => simp
  | cons fe rest ih =>
    simp only [List.foldl_cons]
    rw [ih]
    unfold indexAddFile
    rw [mem_indexGetD_addFileKeys]
    constructor
    · rintro ((h | ⟨ke, hke, h⟩) | ⟨fe2, hfe2, hrest⟩)
      · exact Or.inl h
      · exact Or.inr ⟨fe, List.mem_cons_self fe rest, ke, hke, h⟩
      · exact Or.inr ⟨fe2, List.mem_cons_of_mem fe hfe2, hrest⟩
    · rintro (h | ⟨fe2, hfe2, ke, hke, h⟩)
      · exact Or.inl (Or.inl h)
      · rcases List.mem_cons.1 hfe2 with rfl | hfe3
        · exact Or.inl (Or.inr ⟨ke, hke, h⟩)
        · exact Or.inr ⟨fe2, hfe3, ke, hke, h⟩

theorem mem_indexGetD_build (sl : String) (data : TranslationMap)
    (e : DonorEntry) (t : String) :
    e ∈ indexGetD (buildSourceTextIndex data sl) t ↔
      ∃ fe ∈ data, ∃ ke ∈ fe.2,
        getSourceText ke.2 sl = some t ∧ translationsOf ke.2 ≠ [] ∧
        e = ⟨fe.1, ke.1, translationsOf ke.2⟩ := by
  unfold buildSourceTextIndex
  rw [mem_indexGetD_build_aux]
  simp [indexGetD_nil]

theorem build_translations_wf (sl : String) (data : TranslationMap)
    (e : DonorEntry) (t : String)
    (he : e ∈ indexGetD (buildSourceTextIndex data sl) t)
    (l w : String) (hw : (l, w) ∈ e.translations) : ¬ jsTrim w = "" := by
  rw [mem_indexGetD_build] at he
  obtain ⟨fe, _, ke, _, _, _, rfl⟩ := he
  exact ((mem_translationsOf ke.2 l w).1 hw).2

theorem slotFill_missing_of (donors : List DonorEntry) (l : String)
    (v : Option String)
    (hWF : ∀ w, donorValue donors l = some w → ¬ jsTrim w = "")
    (h : isMissing (slotFill donors l v) = true) :
    isMissing v = true ∧ donorValue donors l = none := by
  unfold slotFill at h
  by_cases hm : isMissing v
  · rw [if_pos hm] at h
    cases hdv : donorValue donors l with
    | none => exact ⟨hm, rfl⟩
    | some w =>
      rw [hdv] at h
      dsimp only at h
      have hother := hWF w hdv
      exact absurd (by simpa [isMissing] using h) hother
  · rw [if_neg hm] at h
    exact absurd h hm

theorem donorValue_build_isSome (data : TranslationMap) (S l : String)
    (fe : String × FileKeys) (hfe : fe ∈ data) (ke : String × Langs)
    (hke : ke ∈ fe.2) (hS : getSourceText ke.2 "en" = some S)
    (w : String) (hmem : (l, some w) ∈ ke.2) (hw : ¬ jsTrim w = "") :
    (donorValue (indexGetD (buildSourceTextIndex data "en") S) l).isSome := by
  have htr : (l, w) ∈ translationsOf ke.2 :=
    (mem_translationsOf ke.2 l w).2 ⟨hmem, hw⟩
  have hne : translationsOf ke.2 ≠ [] := by
    intro h0; rw [h0] at htr; cases htr
  have hentry : (⟨fe.1, ke.1, translationsOf ke.2⟩ : DonorEntry)
      ∈ indexGetD (buildSourceTextIndex data "en") S :=
    (mem_indexGetD_build "en" data _ S).2 ⟨fe, hfe, ke, hke, hS, hne, rfl⟩
  have hlook : (alookup (translationsOf ke.2) l).isSome := alookup_isSome_of_mem htr
  obtain ⟨w2, hw2⟩ := Option.isSome_iff_exists.1 hlook
  have hw2mem := alookup_mem hw2
  have hw2tr := ((mem_translationsOf ke.2 l w2).1 hw2mem).2
  have hw2ne : w2 ≠ "" := by
    intro h0; rw [h0] at hw2tr; exact hw2tr rfl
  exact donorValue_isSome_of _ l ⟨fe.1, ke.1, translationsOf ke.2⟩ hentry w2 hw2 hw2ne

theorem sourceTextStable_key (data : TranslationMap)
    (h : sourceTextStable data = true) (fe : String × FileKeys) (hfe : fe ∈ data)
    (ke : String × Langs) (hke : ke ∈ fe.2) :
    getSourceText ((fillKeyGaps (buildSourceTextIndex data "en") fe.1 ke.1 ke.2).1) "en"
      = getSourceText ke.2 "en" := by
  unfold sourceTextStable at h
  rw [List.all_eq_true] at h
  have h2 := h fe hfe
  rw [List.all_eq_true] at h2
  exact eq_of_beq (h2 ke hke)

theorem second_pass_key_zero (data : TranslationMap) (idx0 : SourceIndex)
    (data1 : TranslationMap) (idx1 : SourceIndex)
    (hidx0 : idx0 = buildSourceTextIndex data "en")
    (hdata1 : data1 = mapSnd (fun fp ks =>
      mapSnd (fun k langs => (fillKeyGaps idx0 fp k langs).1) ks) data)
    (hidx1 : idx1 = buildSourceTextIndex data1 "en")
    (hstable : sourceTextStable data = true)
    (fp1 k1 : String) (langs0 : Langs) (ks0 : FileKeys)
    (hks0 : (fp1, ks0) ∈ data) (hlangs0 : (k1, langs0) ∈ ks0) :
    (fillKeyGaps idx1 fp1 k1 ((fillKeyGaps idx0 fp1 k1 langs0).1)).2.1 = 0 := by
  have hstab : getSourceText ((fillKeyGaps idx0 fp1 k1 langs0).1) "en"
      = getSourceText langs0 "en" := by
    rw [hidx0]
    exact sourceTextStable_key data hstable (fp1, ks0) hks0 (k1, langs0) hlangs0
  rw [fillKeyGaps_count_def]
  cases hS1 : getSourceText ((fillKeyGaps idx0 fp1 k1 langs0).1) "en" with
  | none => rfl
  | some S =>
    dsimp only
    cases hA : alookup idx1 S with
    | none => rfl
    | some donors1 =>
      dsimp only
      by_cases hde : donors1.isEmpty
      · rw [if_pos hde]
      · rw [if_neg hde, List.length_eq_zero, List.filter_eq_nil_iff]
        intro p hp hcontra
        rw [Bool.and_eq_true] at hcontra
        obtain ⟨hmiss1, hdv1⟩ := hcontra
        have hS0 : getSourceText langs0 "en" = some S := by rw [← hstab]; exact hS1
        have hdata_eq : (fillKeyGaps idx0 fp1 k1 langs0).1
            = mapSnd (slotFill (indexGetD idx0 S)) langs0 := by
          rw [fillKeyGaps_data_slotFill, hS0]
        obtain ⟨p1, p2⟩ := p
        have hp2 : (p1, p2) ∈ mapSnd (slotFill (indexGetD idx0 S)) langs0 := by
          rw [← hdata_eq]; exact hp
        rw [mem_mapSnd] at hp2
        obtain ⟨v0, hv0mem, hv0⟩ := hp2
        have hWF0 : ∀ w, donorValue (indexGetD idx0 S) p1 = some w →
            ¬ jsTrim w = "" := by
          intro w hw
          obtain ⟨d, hd, hla, hne⟩ := donorValue_eq_some_mem _ _ _ hw
          rw [hidx0] at hd
          exact build_translations_wf "en" data d S hd p1 w (alookup_mem hla)
        have hmiss0 : isMissing v0 = true ∧
            donorValue (indexGetD idx0 S) p1 = none := by
          apply slotFill_missing_of _ _ _ hWF0
          rw [← hv0]
          exact hmiss1
        have hdon1 : indexGetD idx1 S = donors1 := by
          unfold indexGetD; rw [hA]; rfl
        obtain ⟨w, hw⟩ := Option.isSome_iff_exists.1 hdv1
        obtain ⟨d, hd, hla, hne⟩ := donorValue_eq_some_mem donors1 p1 w hw
        rw [← hdon1, hidx1] at hd
        rw [mem_indexGetD_build] at hd
        obtain ⟨fe2, hfe2, ke2, hke2, hS2, hnt2, rfl⟩ := hd
        have htr := alookup_mem hla
        have hmem2 := (mem_translationsOf ke2.2 p1 w).1 htr
        obtain ⟨fp2, ks12⟩ := fe2
        rw [hdata1, mem_mapSnd] at hfe2
        obtain ⟨ks02, hks02, rfl⟩ := hfe2
        obtain ⟨k2, langs12⟩ := ke2
        rw [mem_mapSnd] at hke2
        obtain ⟨langs02, hlangs02, rfl⟩ := hke2
        have hstab2 : getSourceText ((fillKeyGaps idx0 fp2 k2 langs02).1) "en"
            = getSourceText langs02 "en" := by
          rw [hidx0]
          exact sourceTextStable_key data hstable (fp2, ks02) hks02
            (k2, langs02) hlangs02
        have hS02 : getSourceText langs02 "en" = some S := by
          rw [← hstab2]
          exact hS2
        have hdata_eq2 : (fillKeyGaps idx0 fp2 k2 langs02).1
            = mapSnd (slotFill (indexGetD idx0 S)) langs02 := by
          rw [fillKeyGaps_data_slotFill, hS02]
        have hmem3 : (p1, some w) ∈ mapSnd (slotFill (indexGetD idx0 S)) langs02 := by
          rw [← hdata_eq2]
          exact hmem2.1
        rw [mem_mapSnd] at hmem3
        obtain ⟨v02, hv02mem, hv02⟩ := hmem3
        unfold slotFill at hv02
        by_cases hm2 : isMissing v02
        · rw [if_pos hm2] at hv02
          cases hdv0 : donorValue (indexGetD idx0 S) p1 with
          | some nv =>
            rw [hmiss0.2] at hdv0
            cases hdv0
          | none =>
            rw [hdv0] at hv02
            dsimp only at hv02
            rw [← hv02] at hm2
            have hwne := hmem2.2
            simp only [isMissing, beq_iff_eq] at hm2
            exact hwne hm2
        · rw [if_neg hm2] at hv02
          have hdvS := donorValue_build_isSome data S p1 (fp2, ks02) hks02
            (k2, langs02) hlangs02 hS02 w (by rw [hv02]; exact hv02mem) hmem2.2
          rw [← hidx0, hmiss0.2] at hdvS
          simp at hdvS

/-- C1 counterexample: on this snapshot the first fill pass makes 1
substitution and changes key K's source text, and a second pass with a freshly
rebuilt index makes 1 further substitution instead of 0. -/
theorem C1_not_idempotent_counterexample :
    (fillGaps (fillGaps exC1 (buildSourceTextIndex exC1 "en")).1
        (buildSourceTextIndex (fillGaps exC1 (buildSourceTextIndex exC1 "en")).1 "en")).2.1
      = 1 ∧
    ¬ (fillGaps (fillGaps exC1 (buildSourceTextIndex exC1 "en")).1
        (buildSourceTextIndex (fillGaps exC1 (buildSourceTextIndex exC1 "en")).1 "en")).2.1
      = 0 :=
  ⟨by decide, by decide⟩

/-- C1 amended: a second fill pass with a freshly rebuilt index yields zero
substitutions for every snapshot on which the first pass preserves every key's
source text (in general, a first-pass fill can change a key's fallback source
text and enable new substitutions, see the counterexample). -/
theorem C1_second_pass_zero (data : TranslationMap)
    (hstable : sourceTextStable data = true) :
    (fillGaps (fillGaps data (buildSourceTextIndex data "en")).1
        (buildSourceTextIndex (fillGaps data (buildSourceTextIndex data "en")).1 "en")).2.1
      = 0 := by
  apply List.sum_eq_zero
  intro x hx
  rw [List.mem_map] at hx
  obtain ⟨fe1, hfe1, rfl⟩ := hx
  apply List.sum_eq_zero
  intro y hy
  rw [List.mem_map] at hy
  obtain ⟨ke1, hke1, rfl⟩ := hy
  obtain ⟨fp1, ks1⟩ := fe1
  have hfe2 : (fp1, ks1) ∈ mapSnd (fun fp ks =>
      mapSnd (fun k langs =>
        (fillKeyGaps (buildSourceTextIndex data "en") fp k langs).1) ks) data := hfe1
  rw [mem_mapSnd] at hfe2
  obtain ⟨ks0, hks0, rfl⟩ := hfe2
  obtain ⟨k1, langs1⟩ := ke1
  rw [mem_mapSnd] at hke1
  obtain ⟨langs0, hlangs0, rfl⟩ := hke1
  exact second_pass_key_zero data _ _ _ rfl rfl rfl hstable fp1 k1 langs0 ks0
    hks0 hlangs0

/-- C1 witness: the spec's donor example is source-text stable, and its second
pass makes zero substitutions. -/
theorem C1_second_pass_zero_witness :
    sourceTextStable exC1w = true ∧
    (fillGaps (fillGaps exC1w (buildSourceTextIndex exC1w "en")).1
        (buildSourceTextIndex (fillGaps exC1w (buildSourceTextIndex exC1w "en")).1 "en")).2.1
      = 0 :=
  ⟨by decide, C1_second_pass_zero exC1w (by decide)⟩

end BitrixLoc
